import Mathlib

/-!
Shallow embedding of the rc_structures repository: a generic ring buffer
(ring_buf.h, functions rc_ringbuf_*) and a generic fifo buffer
(fifo_buf.h, functions rc_fifobuf_*).

Modelling conventions:
- The C struct fields are kept with their C names; the data pointer `d`
  becomes `Option (List α)` (`none` models a NULL pointer).
- C `int` fields become `Int` (no overflow is reachable under the
  representation invariant, since every index stays within `[0, size)`).
- Each C function returning a status code becomes a Lean function
  returning the status (`0` or `-1`) paired with the post-state; output
  parameters become an `Option α` component (`none` when the C code does
  not write the output).
- A read `buf->d[i]` becomes `(buf.d.getD []).getD i.toNat 0`; a write
  `buf->d[i] = v` becomes `buf.d.map (fun l => l.set i.toNat v)`. Both
  agree with the C code whenever the representation invariant holds.
- The C `%` operator on int is truncated modulus, embedded as `Int.tmod`.
- `calloc` and `memset` produce zero-filled storage, embedded as
  `List.replicate size.toNat 0`; allocation failure (out of memory) is
  not modelled.
-/

/-- State of a ring buffer, mirroring struct rc_ringbuf_t of ring_buf.h:
data pointer `d`, element count `size`, index of the most recently added
value `index`, and the allocation flag. -/
structure rc_ringbuf_t (α : Type) where
  d : Option (List α)
  size : Int
  index : Int
  initialized : Bool
deriving DecidableEq

/-- Embeds rc_ringbuf_empty / RC_RINGBUF_INITIALIZER: zeroed-out struct
with no memory allocated. -/
def rc_ringbuf_empty (α : Type) : rc_ringbuf_t α :=
  { d := none, size := 0, index := 0, initialized := false }

/-- Embeds rc_ringbuf_alloc: fails on size < 2; no-op when already
allocated at this size with a non-NULL data pointer; otherwise zeroes the
struct, releases old storage and installs fresh zero-filled storage. -/
def rc_ringbuf_alloc [Zero α] (buf : rc_ringbuf_t α) (size : Int) :
    Int × rc_ringbuf_t α :=
  if size < 2 then (-1, buf)
  else if buf.initialized ∧ buf.size = size ∧ buf.d.isSome then (0, buf)
  else
    (0,
      { d := some (List.replicate size.toNat 0), size := size,
        index := 0, initialized := true })

/-- Embeds rc_ringbuf_free: releases storage and resets the struct to the
initializer state; always returns 0 for a non-NULL buffer pointer. -/
def rc_ringbuf_free (buf : rc_ringbuf_t α) : Int × rc_ringbuf_t α :=
  ((0 : Int), rc_ringbuf_empty α)

/-- Embeds rc_ringbuf_reset: fails when uninitialized, otherwise memsets
the storage to zero and sets the index back to 0. -/
def rc_ringbuf_reset [Zero α] (buf : rc_ringbuf_t α) :
    Int × rc_ringbuf_t α :=
  if !buf.initialized then (-1, buf)
  else
    (0,
      { buf with
        d := some (List.replicate buf.size.toNat 0), index := 0 })

/-- Embeds rc_ringbuf_insert: fails when uninitialized; otherwise
increments the index, wraps it to 0 when it reaches size, and writes the
value at the new index. -/
def rc_ringbuf_insert (buf : rc_ringbuf_t α) (val : α) :
    Int × rc_ringbuf_t α :=
  if !buf.initialized then (-1, buf)
  else
    let new_index : Int := if buf.index + 1 ≥ buf.size then 0 else buf.index + 1
    (0,
      { buf with
        d := buf.d.map (fun l => l.set new_index.toNat val),
        index := new_index })

/-- Embeds rc_ringbuf_get_value: fails when position is out of bounds or
the buffer is uninitialized (checks in the order of the C code);
otherwise computes index - position, corrects a negative result by adding
size, and reads the storage there. -/
def rc_ringbuf_get_value [Zero α] (buf : rc_ringbuf_t α) (position : Int) :
    Int × Option α :=
  if position < 0 ∨ position > buf.size - 1 then (-1, none)
  else if !buf.initialized then (-1, none)
  else
    let return_index : Int := buf.index - position
    let return_index : Int :=
      if return_index < 0 then return_index + buf.size else return_index
    (0, some ((buf.d.getD []).getD return_index.toNat 0))

/-- State of a fifo buffer, mirroring struct rc_fifobuf_t of fifo_buf.h:
data pointer `d`, element count `size`, index of the next value to be
read `tail`, count of entries waiting to be read `available`, and the
allocation flag. -/
structure rc_fifobuf_t (α : Type) where
  d : Option (List α)
  size : Int
  tail : Int
  available : Int
  initialized : Bool
deriving DecidableEq

/-- Embeds rc_fifobuf_empty / RC_FIFOBUF_INITIALIZER: zeroed-out struct
with no memory allocated. -/
def rc_fifobuf_empty (α : Type) : rc_fifobuf_t α :=
  { d := none, size := 0, tail := 0, available := 0, initialized := false }

/-- Embeds rc_fifobuf_alloc: fails on size < 2; no-op when already
allocated at this size with a non-NULL data pointer; otherwise zeroes the
struct, releases old storage and installs fresh zero-filled storage. -/
def rc_fifobuf_alloc [Zero α] (buf : rc_fifobuf_t α) (size : Int) :
    Int × rc_fifobuf_t α :=
  if size < 2 then (-1, buf)
  else if buf.initialized ∧ buf.size = size ∧ buf.d.isSome then (0, buf)
  else
    (0,
      { d := some (List.replicate size.toNat 0), size := size,
        tail := 0, available := 0, initialized := true })

/-- Embeds rc_fifobuf_free: releases storage and resets the struct to the
initializer state; always returns 0 for a non-NULL buffer pointer. -/
def rc_fifobuf_free (buf : rc_fifobuf_t α) : Int × rc_fifobuf_t α :=
  ((0 : Int), rc_fifobuf_empty α)

/-- Embeds rc_fifobuf_reset: fails when uninitialized, otherwise memsets
the storage to zero and sets tail and available back to 0. -/
def rc_fifobuf_reset [Zero α] (buf : rc_fifobuf_t α) :
    Int × rc_fifobuf_t α :=
  if !buf.initialized then (-1, buf)
  else
    (0,
      { buf with
        d := some (List.replicate buf.size.toNat 0),
        tail := 0, available := 0 })

/-- Embeds rc_fifobuf_available: -1 when uninitialized, otherwise the
available count. -/
def rc_fifobuf_available (buf : rc_fifobuf_t α) : Int :=
  if !buf.initialized then -1 else buf.available

/-- Embeds rc_fifobuf_push: fails when uninitialized; fails silently when
full (available == size); otherwise writes the value at
(tail + available) % size and increments available. -/
def rc_fifobuf_push (buf : rc_fifobuf_t α) (val : α) :
    Int × rc_fifobuf_t α :=
  if !buf.initialized then (-1, buf)
  else if buf.available = buf.size then (-1, buf)
  else
    let new_index : Int := Int.tmod (buf.tail + buf.available) buf.size
    (0,
      { buf with
        d := buf.d.map (fun l => l.set new_index.toNat val),
        available := buf.available + 1 })

/-- Embeds rc_fifobuf_pop: fails when uninitialized; fails silently when
empty (available == 0); otherwise writes out the value at tail,
decrements available and advances tail by one modulo size. -/
def rc_fifobuf_pop [Zero α] (buf : rc_fifobuf_t α) :
    Int × Option α × rc_fifobuf_t α :=
  if !buf.initialized then (-1, none, buf)
  else if buf.available = 0 then (-1, none, buf)
  else
    (0, some ((buf.d.getD []).getD buf.tail.toNat 0),
      { buf with
        available := buf.available - 1,
        tail := Int.tmod (buf.tail + 1) buf.size })

/-- Representation invariant of an allocated ring buffer: initialized,
index within bounds, and storage of exactly `size` elements. -/
def ringbuf_ok (b : rc_ringbuf_t α) : Prop :=
  b.initialized = true ∧ 0 ≤ b.index ∧ b.index < b.size ∧
  b.d.isSome = true ∧ (b.d.getD []).length = b.size.toNat

/-- Representation invariant of an allocated fifo buffer: initialized,
tail within bounds, available between 0 and size, and storage of exactly
`size` elements. -/
def fifobuf_ok (b : rc_fifobuf_t α) : Prop :=
  b.initialized = true ∧ 0 ≤ b.tail ∧ b.tail < b.size ∧
  0 ≤ b.available ∧ b.available ≤ b.size ∧
  b.d.isSome = true ∧ (b.d.getD []).length = b.size.toNat

/-- Inserting a list of values into a ring buffer, one rc_ringbuf_insert
call per element, left to right. -/
def rc_ringbuf_insertAll (b : rc_ringbuf_t α) (vs : List α) : rc_ringbuf_t α :=
  vs.foldl (fun s v => (rc_ringbuf_insert s v).2) b

/-- Reading one storage slot of a ring buffer, with 0 out of bounds. -/
def ringbuf_slot [Zero α] (b : rc_ringbuf_t α) (j : ℕ) : α :=
  (b.d.getD []).getD j 0

instance : DecidablePred (ringbuf_ok (α := Int)) := fun b => by
  unfold ringbuf_ok; infer_instance

instance : DecidablePred (fifobuf_ok (α := Int)) := fun b => by
  unfold fifobuf_ok; infer_instance

lemma list_getD_set_self (l : List α) (n : ℕ) (v dflt : α) (h : n < l.length) :
    (l.set n v).getD n dflt = v := by
  rw [List.getD_eq_getElem?_getD, List.getElem?_set_self h]
  rfl

lemma list_getD_set_ne (l : List α) (n m : ℕ) (v dflt : α) (h : n ≠ m) :
    (l.set n v).getD m dflt = l.getD m dflt := by
  rw [List.getD_eq_getElem?_getD, List.getElem?_set_ne h,
    ← List.getD_eq_getElem?_getD]

lemma ringbuf_alloc_fresh (α : Type) [Zero α] (c : Int) (hc : 2 ≤ c) :
    rc_ringbuf_alloc (rc_ringbuf_empty α) c =
      (0,
        { d := some (List.replicate c.toNat 0), size := c, index := 0,
          initialized := true }) := by
  unfold rc_ringbuf_alloc
  rw [if_neg (by omega), if_neg (by simp [rc_ringbuf_empty])]

lemma ringbuf_fresh_ok (α : Type) [Zero α] (c : Int) (hc : 2 ≤ c) :
    ringbuf_ok
      ({ d := some (List.replicate c.toNat 0), size := c, index := 0,
         initialized := true } : rc_ringbuf_t α) := by
  refine ⟨rfl, le_refl 0, by dsimp only; omega, rfl, ?_⟩
  simp

lemma ringbuf_insert_eq (b : rc_ringbuf_t α) (v : α) (l : List α)
    (hinit : b.initialized = true) (hl : b.d = some l) :
    rc_ringbuf_insert b v =
      (0, { b with
            d := some (l.set (if b.index + 1 ≥ b.size then 0 else
              b.index + 1).toNat v),
            index := if b.index + 1 ≥ b.size then 0 else b.index + 1 }) := by
  simp [rc_ringbuf_insert, hinit, hl]

lemma ringbuf_insert_ok (b : rc_ringbuf_t α) (v : α) (hb : ringbuf_ok b) :
    ringbuf_ok (rc_ringbuf_insert b v).2 ∧
      (rc_ringbuf_insert b v).2.size = b.size ∧
      (rc_ringbuf_insert b v).1 = 0 := by
  obtain ⟨hinit, hi0, his, hsome, hlen⟩ := hb
  obtain ⟨l, hl⟩ := Option.isSome_iff_exists.mp hsome
  rw [ringbuf_insert_eq b v l hinit hl]
  rw [hl] at hlen
  refine ⟨⟨hinit, ?_, ?_, rfl, ?_⟩, rfl, rfl⟩
  · dsimp only
    split <;> omega
  · dsimp only
    split <;> omega
  · dsimp only
    rw [Option.getD_some, List.length_set]
    simpa using hlen

lemma ringbuf_get_eq_corrected (b : rc_ringbuf_t α) [Zero α] (p : Int)
    (hinit : b.initialized = true) (hp0 : 0 ≤ p) (hps : p < b.size) :
    rc_ringbuf_get_value b p =
      (0, some ((b.d.getD []).getD
        (if b.index - p < 0 then b.index - p + b.size
         else b.index - p).toNat 0)) := by
  unfold rc_ringbuf_get_value
  rw [if_neg (by omega), if_neg (by simp [hinit])]

lemma ringbuf_corrected_eq_emod (i p s : Int) (hi0 : 0 ≤ i) (his : i < s)
    (hp0 : 0 ≤ p) (hps : p < s) :
    (if i - p < 0 then i - p + s else i - p) = (i - p) % s := by
  split
  · have h1 := Int.add_mul_emod_self_left (i - p) s 1
    rw [mul_one] at h1
    rw [← h1, Int.emod_eq_of_lt (by omega) (by omega)]
  · rw [Int.emod_eq_of_lt (by omega) (by omega)]

lemma ringbuf_get_insert_zero [Zero α] (b : rc_ringbuf_t α) (v : α)
    (hb : ringbuf_ok b) :
    rc_ringbuf_get_value (rc_ringbuf_insert b v).2 0 = (0, some v) := by
  obtain ⟨hinit, hi0, his, hsome, hlen⟩ := hb
  obtain ⟨l, hl⟩ := Option.isSome_iff_exists.mp hsome
  rw [hl, Option.getD_some] at hlen
  by_cases hcase : b.size ≤ b.index + 1
  · simp [rc_ringbuf_insert, rc_ringbuf_get_value, hinit, hl, hcase]
    rw [if_neg (by omega), List.getElem?_set_self (by omega)]
    rfl
  · simp [rc_ringbuf_insert, rc_ringbuf_get_value, hinit, hl, hcase]
    rw [if_neg (by omega), if_neg (by omega),
      List.getElem?_set_self (by omega)]
    rfl

lemma ringbuf_get_insert_succ [Zero α] (b : rc_ringbuf_t α) (v : α) (p : Int)
    (hb : ringbuf_ok b) (hp0 : 0 ≤ p) (hps : p ≤ b.size - 2) :
    rc_ringbuf_get_value (rc_ringbuf_insert b v).2 (p + 1) =
      rc_ringbuf_get_value b p := by
  obtain ⟨hinit, hi0, his, hsome, hlen⟩ := hb
  obtain ⟨l, hl⟩ := Option.isSome_iff_exists.mp hsome
  rw [hl, Option.getD_some] at hlen
  by_cases hcase : b.size ≤ b.index + 1
  · simp [rc_ringbuf_insert, rc_ringbuf_get_value, hinit, hl, hcase]
    rw [if_neg (show ¬ (p + 1 < 0 ∨ b.size - 1 < p + 1) by omega),
      if_neg (show ¬ (p < 0 ∨ b.size - 1 < p) by omega),
      if_pos (show (-1:ℤ) < p by omega),
      if_neg (show ¬ b.index < p by omega),
      List.getElem?_set_ne (show (0:ℕ) ≠ (-1 + -p + b.size).toNat by omega),
      show (-1 + -p + b.size).toNat = (b.index - p).toNat by omega]
  · simp [rc_ringbuf_insert, rc_ringbuf_get_value, hinit, hl, hcase]
    have hne : (b.index + 1).toNat ≠
        (if b.index < p then b.index - p + b.size else b.index - p).toNat := by
      split <;> omega
    rw [if_neg (show ¬ (p + 1 < 0 ∨ b.size - 1 < p + 1) by omega),
      if_neg (show ¬ (p < 0 ∨ b.size - 1 < p) by omega),
      List.getElem?_set_ne hne]

lemma ringbuf_insertAll_append (b : rc_ringbuf_t α) (vs : List α) (v : α) :
    rc_ringbuf_insertAll b (vs ++ [v]) =
      (rc_ringbuf_insert (rc_ringbuf_insertAll b vs) v).2 := by
  simp [rc_ringbuf_insertAll, List.foldl_append]

lemma ringbuf_insertAll_ok (vs : List α) (b : rc_ringbuf_t α)
    (hb : ringbuf_ok b) :
    ringbuf_ok (rc_ringbuf_insertAll b vs) ∧
      (rc_ringbuf_insertAll b vs).size = b.size := by
  induction vs generalizing b with
  | nil => exact ⟨hb, rfl⟩
  | cons v vs ih =>
    obtain ⟨h1, h2, _⟩ := ringbuf_insert_ok b v hb
    have h3 := ih _ h1
    exact ⟨h3.1, h3.2.trans h2⟩

lemma ringbuf_insertAll_get [Zero α] (vs : List α) (b : rc_ringbuf_t α)
    (hb : ringbuf_ok b) (k : ℕ) (hkv : k < vs.length) (hks : (k:ℤ) < b.size) :
    rc_ringbuf_get_value (rc_ringbuf_insertAll b vs) (k:ℤ) =
      (0, some (vs.getD (vs.length - 1 - k) 0)) := by
  induction vs using List.reverseRecOn generalizing k with
  | nil => simp at hkv
  | append_singleton ws v ih =>
    rw [ringbuf_insertAll_append]
    obtain ⟨hok, hsz⟩ := ringbuf_insertAll_ok ws b hb
    cases k with
    | zero =>
      rw [show ((0:ℕ):ℤ) = 0 from rfl, ringbuf_get_insert_zero _ v hok]
      simp [List.getD_eq_getElem?_getD, List.getElem?_concat_length]
    | succ j =>
      have hjw : j < ws.length := by simpa using hkv
      rw [show ((j+1:ℕ):ℤ) = (j:ℤ) + 1 from by push_cast; ring,
        ringbuf_get_insert_succ _ v (j:ℤ) hok (by positivity)
          (by rw [hsz]; push_cast at hks ⊢; omega),
        ih j hjw (by push_cast at hks ⊢; omega)]
      have hidx : (ws ++ [v]).length - 1 - (j + 1) = ws.length - 1 - j := by
        simp; omega
      rw [hidx, List.getD_append ws [v] 0 (ws.length - 1 - j) (by omega)]

/-- Ring buffer of capacity 3 after inserting 1, 2, 3, 4 in order. -/
def c1buf : rc_ringbuf_t Int :=
  rc_ringbuf_insertAll ((rc_ringbuf_alloc (rc_ringbuf_empty Int) 3).2)
    [1, 2, 3, 4]

/-- Claim C1: RingBuffer retention order: for every capacity c ≥ 2,
inserting the values v0..v(c-1) in order into a freshly allocated
RingBuffer makes get(0) return v(c-1) and get(c-1) return v0; with
capacity 3, after inserting 1,2,3,4 in order, get(0)=4, get(1)=3,
get(2)=2, and the value 1 is no longer retrievable at any position. -/
theorem claim_C1 :
    (∀ (c : ℕ), 2 ≤ c → ∀ (vs : List Int), vs.length = c →
      rc_ringbuf_get_value
        (rc_ringbuf_insertAll
          ((rc_ringbuf_alloc (rc_ringbuf_empty Int) (c:ℤ)).2) vs) 0 =
        (0, some (vs.getD (c - 1) 0)) ∧
      rc_ringbuf_get_value
        (rc_ringbuf_insertAll
          ((rc_ringbuf_alloc (rc_ringbuf_empty Int) (c:ℤ)).2) vs)
        ((c:ℤ) - 1) =
        (0, some (vs.getD 0 0))) ∧
    rc_ringbuf_get_value c1buf 0 = (0, some 4) ∧
    rc_ringbuf_get_value c1buf 1 = (0, some 3) ∧
    rc_ringbuf_get_value c1buf 2 = (0, some 2) ∧
    ∀ p : ℤ, (rc_ringbuf_get_value c1buf p).2 ≠ some 1 := by
  refine ⟨?_, by decide, by decide, by decide, ?_⟩
  · intro c hc vs hlen
    have hc2 : (2:ℤ) ≤ (c:ℤ) := by exact_mod_cast hc
    rw [ringbuf_alloc_fresh Int (c:ℤ) hc2]
    have hok := ringbuf_fresh_ok Int (c:ℤ) hc2
    constructor
    · have h0 := ringbuf_insertAll_get vs _ hok 0 (by omega)
        (by dsimp only; omega)
      rw [show ((0:ℕ):ℤ) = (0:ℤ) from rfl] at h0
      rw [h0, hlen]
      simp
    · have h1 := ringbuf_insertAll_get vs _ hok (c - 1) (by omega)
        (by dsimp only; omega)
      rw [show (((c - 1:ℕ)):ℤ) = (c:ℤ) - 1 from by omega] at h1
      rw [h1, hlen]
      have : c - 1 - (c - 1) = 0 := by omega
      rw [this]
  · intro p
    by_cases h0 : 0 ≤ p ∧ p ≤ 2
    · obtain ⟨h1, h2⟩ := h0
      rcases (show p = 0 ∨ p = 1 ∨ p = 2 by omega) with rfl | rfl | rfl <;>
        decide
    · have hsz : c1buf.size = 3 := by decide
      unfold rc_ringbuf_get_value
      rw [hsz, if_pos (by omega : p < 0 ∨ p > (3:ℤ) - 1)]
      simp

/-- Witness for claim C1 at capacity 3 with values 10, 20, 30. -/
theorem claim_C1_witness :
    (2 ≤ 3 ∧ ([10, 20, 30] : List Int).length = 3) ∧
    rc_ringbuf_get_value
      (rc_ringbuf_insertAll
        ((rc_ringbuf_alloc (rc_ringbuf_empty Int) ((3:ℕ):ℤ)).2)
        [10, 20, 30]) 0 = (0, some 30) := by
  refine ⟨⟨by omega, by decide⟩, ?_⟩
  have h := (claim_C1.1 3 (by omega) [10, 20, 30] (by decide)).1
  simpa using h

lemma ringbuf_new_index_eq_emod (b : rc_ringbuf_t α)
    (hi0 : 0 ≤ b.index) (his : b.index < b.size) :
    (if b.index + 1 ≥ b.size then 0 else b.index + 1) =
      (b.index + 1) % b.size := by
  split
  · have h1 : b.index + 1 = b.size := by omega
    rw [h1, Int.emod_self]
  · rw [Int.emod_eq_of_lt (by omega) (by omega)]

/-- Allocated ring buffer of capacity 2 holding 5 and 6, used as a
concrete instance in witnesses. -/
def sampleRing : rc_ringbuf_t Int :=
  { d := some [5, 6], size := 2, index := 0, initialized := true }

/-- Claim C5: RingBuffer insert algorithm: for every allocated RingBuffer,
a successful insert(value) first advances the cursor by one position with
wraparound (cursor becomes (cursor + 1) mod capacity) and then writes
value at the new cursor position, so that position 0 in subsequent get
calls is always the just-inserted value. -/
theorem claim_C5 :
    ∀ (b : rc_ringbuf_t Int) (v : Int), ringbuf_ok b →
      rc_ringbuf_insert b v =
        (0, { b with
              d := b.d.map
                (fun l => l.set ((b.index + 1) % b.size).toNat v),
              index := (b.index + 1) % b.size }) ∧
      rc_ringbuf_get_value (rc_ringbuf_insert b v).2 0 = (0, some v) := by
  intro b v hb
  refine ⟨?_, ringbuf_get_insert_zero b v hb⟩
  obtain ⟨hinit, hi0, his, hsome, hlen⟩ := hb
  have hni := ringbuf_new_index_eq_emod b hi0 his
  simp [rc_ringbuf_insert, hinit, ← hni]

/-- Witness for claim C5 on sampleRing with value 7. -/
theorem claim_C5_witness :
    ringbuf_ok sampleRing ∧
    rc_ringbuf_insert sampleRing 7 =
      (0, { d := some [5, 7], size := 2, index := 1,
            initialized := true }) ∧
    rc_ringbuf_get_value (rc_ringbuf_insert sampleRing 7).2 0 =
      (0, some 7) := by
  refine ⟨by decide, ?_, (claim_C5 sampleRing 7 (by decide)).2⟩
  rw [(claim_C5 sampleRing 7 (by decide)).1]
  decide

/-- Claim C10: a successful insert(v) on an allocated RingBuffer modifies
exactly one storage slot (the new cursor slot) and leaves all other slots
unchanged; consequently, for every position p in [0, capacity-2],
get(p+1) after the insert returns the value that get(p) returned before
the insert, and get(0) returns v. -/
theorem claim_C10 :
    ∀ (b : rc_ringbuf_t Int) (v : Int), ringbuf_ok b →
      (rc_ringbuf_insert b v).1 = 0 ∧
      ringbuf_slot (rc_ringbuf_insert b v).2
        ((b.index + 1) % b.size).toNat = v ∧
      (∀ j : ℕ, j ≠ ((b.index + 1) % b.size).toNat →
        ringbuf_slot (rc_ringbuf_insert b v).2 j = ringbuf_slot b j) ∧
      rc_ringbuf_get_value (rc_ringbuf_insert b v).2 0 = (0, some v) ∧
      (∀ p : ℤ, 0 ≤ p → p ≤ b.size - 2 →
        rc_ringbuf_get_value (rc_ringbuf_insert b v).2 (p + 1) =
          rc_ringbuf_get_value b p) := by
  intro b v hb
  have hb' := hb
  obtain ⟨hinit, hi0, his, hsome, hlen⟩ := hb'
  obtain ⟨l, hl⟩ := Option.isSome_iff_exists.mp hsome
  rw [hl, Option.getD_some] at hlen
  have hni := ringbuf_new_index_eq_emod b hi0 his
  refine ⟨?_, ?_, ?_, ringbuf_get_insert_zero b v hb,
    fun p hp0 hps => ringbuf_get_insert_succ b v p hb hp0 hps⟩
  · simp [rc_ringbuf_insert, hinit]
  · rw [ringbuf_insert_eq b v l hinit hl]
    dsimp only [ringbuf_slot]
    rw [← hni, Option.getD_some, list_getD_set_self]
    split <;> omega
  · intro j hj
    rw [← hni] at hj
    rw [ringbuf_insert_eq b v l hinit hl]
    dsimp only [ringbuf_slot]
    rw [Option.getD_some, hl, Option.getD_some, list_getD_set_ne]
    omega

/-- Witness for claim C10 on sampleRing with value 7, slot 0 and
position 0. -/
theorem claim_C10_witness :
    (ringbuf_ok sampleRing ∧
      (0:ℕ) ≠ ((sampleRing.index + 1) % sampleRing.size).toNat ∧
      (0:ℤ) ≤ 0 ∧ (0:ℤ) ≤ sampleRing.size - 2) ∧
    (rc_ringbuf_insert sampleRing 7).1 = 0 ∧
    ringbuf_slot (rc_ringbuf_insert sampleRing 7).2 0 =
      ringbuf_slot sampleRing 0 ∧
    rc_ringbuf_get_value (rc_ringbuf_insert sampleRing 7).2 (0 + 1) =
      rc_ringbuf_get_value sampleRing 0 := by
  have h := claim_C10 sampleRing 7 (by decide)
  exact ⟨⟨by decide, by decide, by decide, by decide⟩, h.1,
    h.2.2.1 0 (by decide), h.2.2.2.2 0 (by decide) (by decide)⟩

/-- Claim C3: RingBuffer get contract: for every buffer and every
position, get(position) fails exactly when the buffer is not allocated or
position is outside [0, capacity-1]; when it succeeds it returns the
value stored at index (cursor - position) mod capacity (computed with
correction for negative results), i.e. the value position steps behind
the most recent insertion. -/
theorem claim_C3 :
    ∀ (b : rc_ringbuf_t Int) (p : Int),
      ((rc_ringbuf_get_value b p).1 = -1 ↔
        (b.initialized = false ∨ p < 0 ∨ b.size ≤ p)) ∧
      (ringbuf_ok b → 0 ≤ p → p < b.size →
        rc_ringbuf_get_value b p =
          (0, some ((b.d.getD []).getD
            ((b.index - p) % b.size).toNat 0))) := by
  intro b p
  constructor
  · unfold rc_ringbuf_get_value
    split_ifs with h1 h2
    · exact ⟨fun _ => Or.inr (by omega), fun _ => rfl⟩
    · simp only [Bool.not_eq_eq_eq_not, Bool.not_true] at h2
      exact ⟨fun _ => Or.inl h2, fun _ => rfl⟩
    · simp only [Bool.not_eq_eq_eq_not, Bool.not_true] at h2
      constructor
      · intro hcontra
        exact absurd hcontra (by simp)
      · intro hr
        rcases hr with h | h | h
        · exact absurd h h2
        · omega
        · omega
  · intro hb hp0 hps
    obtain ⟨hinit, hi0, his, hsome, hlen⟩ := hb
    rw [ringbuf_get_eq_corrected b p hinit hp0 hps,
      ringbuf_corrected_eq_emod b.index p b.size hi0 his hp0 hps]

/-- Witness for claim C3 on sampleRing at position 1. -/
theorem claim_C3_witness :
    (ringbuf_ok sampleRing ∧ (0:ℤ) ≤ 1 ∧ (1:ℤ) < sampleRing.size) ∧
    ((rc_ringbuf_get_value sampleRing 1).1 = -1 ↔
      (sampleRing.initialized = false ∨ (1:ℤ) < 0 ∨
        sampleRing.size ≤ 1)) ∧
    rc_ringbuf_get_value sampleRing 1 =
      (0, some ((sampleRing.d.getD []).getD
        ((sampleRing.index - 1) % sampleRing.size).toNat 0)) := by
  have h := claim_C3 sampleRing 1
  exact ⟨⟨by decide, by decide, by decide⟩, h.1,
    h.2 (by decide) (by decide) (by decide)⟩

/-- Claim C7: fresh-buffer read: for every capacity ≥ 2, immediately
after allocate(capacity) on a previously empty RingBuffer and before any
insert, get(0) succeeds and returns the zero value of the element type
(all slots are zero-filled at allocation). -/
theorem claim_C7 :
    ∀ c : Int, 2 ≤ c →
      rc_ringbuf_get_value
        ((rc_ringbuf_alloc (rc_ringbuf_empty Int) c).2) 0 =
        (0, some 0) := by
  intro c hc
  rw [ringbuf_alloc_fresh Int c hc]
  simp [rc_ringbuf_get_value]
  omega

/-- Witness for claim C7 at capacity 2. -/
theorem claim_C7_witness :
    (2:ℤ) ≤ 2 ∧
    rc_ringbuf_get_value
      ((rc_ringbuf_alloc (rc_ringbuf_empty Int) 2).2) 0 = (0, some 0) :=
  ⟨by omega, claim_C7 2 (by omega)⟩

/-- Allocated fifo buffer of capacity 2 holding one unread value 5, used
as a concrete instance in witnesses. -/
def sampleFifo : rc_fifobuf_t Int :=
  { d := some [5, 6], size := 2, tail := 0, available := 1,
    initialized := true }

/-- Claim C6: allocate(capacity) fails when capacity < 2; when the buffer
is already allocated at exactly the requested capacity it is a no-op that
preserves all existing contents and cursor state; otherwise it produces a
fresh zero-filled storage of the requested length with the cursor (and
for FifoBuffer, head and count) reset to 0. -/
theorem claim_C6 :
    ∀ (b : rc_ringbuf_t Int) (b2 : rc_fifobuf_t Int) (c : Int),
      (c < 2 →
        rc_ringbuf_alloc b c = (-1, b) ∧ rc_fifobuf_alloc b2 c = (-1, b2)) ∧
      (2 ≤ c → b.initialized = true → b.size = c → b.d.isSome = true →
        rc_ringbuf_alloc b c = (0, b)) ∧
      (2 ≤ c → b2.initialized = true → b2.size = c → b2.d.isSome = true →
        rc_fifobuf_alloc b2 c = (0, b2)) ∧
      (2 ≤ c →
        ¬(b.initialized = true ∧ b.size = c ∧ b.d.isSome = true) →
        rc_ringbuf_alloc b c =
          (0, { d := some (List.replicate c.toNat 0), size := c,
                index := 0, initialized := true })) ∧
      (2 ≤ c →
        ¬(b2.initialized = true ∧ b2.size = c ∧ b2.d.isSome = true) →
        rc_fifobuf_alloc b2 c =
          (0, { d := some (List.replicate c.toNat 0), size := c,
                tail := 0, available := 0, initialized := true })) := by
  intro b b2 c
  refine ⟨?_, ?_, ?_, ?_, ?_⟩
  · intro hc
    constructor
    · unfold rc_ringbuf_alloc
      rw [if_pos hc]
    · unfold rc_fifobuf_alloc
      rw [if_pos hc]
  · intro hc h1 h2 h3
    unfold rc_ringbuf_alloc
    rw [if_neg (by omega), if_pos ⟨h1, h2, h3⟩]
  · intro hc h1 h2 h3
    unfold rc_fifobuf_alloc
    rw [if_neg (by omega), if_pos ⟨h1, h2, h3⟩]
  · intro hc hno
    unfold rc_ringbuf_alloc
    rw [if_neg (by omega), if_neg hno]
  · intro hc hno
    unfold rc_fifobuf_alloc
    rw [if_neg (by omega), if_neg hno]

/-- Witness for claim C6: no-op re-allocation of sampleRing at its own
capacity 2, and failing allocation at capacity 1 for both types. -/
theorem claim_C6_witness :
    ((2:ℤ) ≤ 2 ∧ sampleRing.initialized = true ∧ sampleRing.size = 2 ∧
      sampleRing.d.isSome = true ∧ (1:ℤ) < 2) ∧
    rc_ringbuf_alloc sampleRing 2 = (0, sampleRing) ∧
    rc_ringbuf_alloc sampleRing 1 = (-1, sampleRing) ∧
    rc_fifobuf_alloc sampleFifo 1 = (-1, sampleFifo) := by
  refine ⟨⟨by omega, by decide, by decide, by decide, by omega⟩, ?_, ?_, ?_⟩
  · exact (claim_C6 sampleRing sampleFifo 2).2.1 (by omega) (by decide)
      (by decide) (by decide)
  · exact ((claim_C6 sampleRing sampleFifo 1).1 (by omega)).1
  · exact ((claim_C6 sampleRing sampleFifo 1).1 (by omega)).2

/-- Claim C8: release idempotence: for both buffer types and for every
buffer state, release() never fails and leaves the buffer in the empty
state (no storage, capacity 0, cursors 0); calling release() a second
time in a row also succeeds and leaves the buffer in the same empty
state. -/
theorem claim_C8 :
    ∀ (b : rc_ringbuf_t Int) (b2 : rc_fifobuf_t Int),
      rc_ringbuf_free b = (0, rc_ringbuf_empty Int) ∧
      rc_ringbuf_free (rc_ringbuf_free b).2 = (0, rc_ringbuf_empty Int) ∧
      (rc_ringbuf_empty Int).d = none ∧
      (rc_ringbuf_empty Int).size = 0 ∧
      (rc_ringbuf_empty Int).index = 0 ∧
      (rc_ringbuf_empty Int).initialized = false ∧
      rc_fifobuf_free b2 = (0, rc_fifobuf_empty Int) ∧
      rc_fifobuf_free (rc_fifobuf_free b2).2 = (0, rc_fifobuf_empty Int) ∧
      (rc_fifobuf_empty Int).d = none ∧
      (rc_fifobuf_empty Int).size = 0 ∧
      (rc_fifobuf_empty Int).tail = 0 ∧
      (rc_fifobuf_empty Int).available = 0 ∧
      (rc_fifobuf_empty Int).initialized = false := by
  intro b b2
  exact ⟨rfl, rfl, rfl, rfl, rfl, rfl, rfl, rfl, rfl, rfl, rfl, rfl, rfl⟩

lemma fifobuf_push_eq (b : rc_fifobuf_t Int) (v : Int)
    (hb : fifobuf_ok b) (hnf : b.available < b.size) :
    rc_fifobuf_push b v =
      (0, { b with
            d := b.d.map
              (fun l => l.set ((b.tail + b.available) % b.size).toNat v),
            available := b.available + 1 }) := by
  obtain ⟨hinit, ht0, hts, ha0, has, hsome, hlen⟩ := hb
  have htm : Int.tmod (b.tail + b.available) b.size =
      (b.tail + b.available) % b.size :=
    Int.tmod_eq_emod (by omega) (by omega)
  simp [rc_fifobuf_push, hinit, htm,
    show b.available ≠ b.size from by omega]

lemma fifobuf_pop_eq (b : rc_fifobuf_t Int)
    (hb : fifobuf_ok b) (hne : 0 < b.available) :
    rc_fifobuf_pop b =
      (0, some ((b.d.getD []).getD b.tail.toNat 0),
        { b with
          available := b.available - 1,
          tail := (b.tail + 1) % b.size }) := by
  obtain ⟨hinit, ht0, hts, ha0, has, hsome, hlen⟩ := hb
  have htm : Int.tmod (b.tail + 1) b.size = (b.tail + 1) % b.size :=
    Int.tmod_eq_emod (by omega) (by omega)
  simp [rc_fifobuf_pop, hinit, htm,
    show b.available ≠ 0 from by omega]

/-- Fifo buffer of capacity 3 after pushing 1, 2, 3 in order. -/
def c2buf : rc_fifobuf_t Int :=
  (rc_fifobuf_push
    ((rc_fifobuf_push
      ((rc_fifobuf_push
        ((rc_fifobuf_alloc (rc_fifobuf_empty Int) 3).2) 1).2) 2).2) 3).2

/-- First pop from c2buf. -/
def c2pop1 : Int × Option Int × rc_fifobuf_t Int := rc_fifobuf_pop c2buf

/-- Second pop from c2buf. -/
def c2pop2 : Int × Option Int × rc_fifobuf_t Int :=
  rc_fifobuf_pop c2pop1.2.2

/-- Third pop from c2buf. -/
def c2pop3 : Int × Option Int × rc_fifobuf_t Int :=
  rc_fifobuf_pop c2pop2.2.2

/-- Claim C2: FifoBuffer push/pop semantics and strict FIFO order: a
successful push writes its value at index (head + count) mod capacity and
increments count; a successful pop reads the value at head, decrements
count, and advances head by one mod capacity; after allocating with
capacity 3 and pushing 1, 2, 3, successive pops return 1, then 2, then 3,
with available() decrementing to 2, 1, 0, and a further pop fails. -/
theorem claim_C2 :
    (∀ (b : rc_fifobuf_t Int) (v : Int), fifobuf_ok b →
      b.available < b.size →
      rc_fifobuf_push b v =
        (0, { b with
              d := b.d.map
                (fun l => l.set ((b.tail + b.available) % b.size).toNat v),
              available := b.available + 1 })) ∧
    (∀ b : rc_fifobuf_t Int, fifobuf_ok b → 0 < b.available →
      rc_fifobuf_pop b =
        (0, some ((b.d.getD []).getD b.tail.toNat 0),
          { b with
            available := b.available - 1,
            tail := (b.tail + 1) % b.size })) ∧
    c2pop1.1 = 0 ∧ c2pop1.2.1 = some 1 ∧
    rc_fifobuf_available c2pop1.2.2 = 2 ∧
    c2pop2.1 = 0 ∧ c2pop2.2.1 = some 2 ∧
    rc_fifobuf_available c2pop2.2.2 = 1 ∧
    c2pop3.1 = 0 ∧ c2pop3.2.1 = some 3 ∧
    rc_fifobuf_available c2pop3.2.2 = 0 ∧
    (rc_fifobuf_pop c2pop3.2.2).1 = -1 := by
  refine ⟨fifobuf_push_eq, fifobuf_pop_eq, ?_, ?_, ?_, ?_, ?_, ?_, ?_, ?_,
    ?_, ?_⟩ <;> decide

/-- Witness for claim C2 on sampleFifo: one push of 9 and one pop. -/
theorem claim_C2_witness :
    (fifobuf_ok sampleFifo ∧ sampleFifo.available < sampleFifo.size ∧
      0 < sampleFifo.available) ∧
    rc_fifobuf_push sampleFifo 9 =
      (0, { d := some [5, 9], size := 2, tail := 0, available := 2,
            initialized := true }) ∧
    rc_fifobuf_pop sampleFifo =
      (0, some 5,
        { d := some [5, 6], size := 2, tail := 1, available := 0,
          initialized := true }) := by
  refine ⟨⟨by decide, by decide, by decide⟩, ?_, ?_⟩
  · rw [claim_C2.1 sampleFifo 9 (by decide) (by decide)]
    decide
  · rw [claim_C2.2.1 sampleFifo (by decide) (by decide)]
    decide

lemma fifobuf_alloc_fresh (α : Type) [Zero α] (c : Int) (hc : 2 ≤ c) :
    rc_fifobuf_alloc (rc_fifobuf_empty α) c =
      (0,
        { d := some (List.replicate c.toNat 0), size := c, tail := 0,
          available := 0, initialized := true }) := by
  unfold rc_fifobuf_alloc
  rw [if_neg (by omega), if_neg (by simp [rc_fifobuf_empty])]

/-- Claim C4: FifoBuffer capacity-boundary failures are atomic: push on
an allocated buffer fails when count == capacity and leaves the entire
buffer state unchanged (in particular available() still returns capacity
afterward), and pop fails when count == 0 and leaves the entire buffer
state unchanged; available() returns 0 immediately after allocation. -/
theorem claim_C4 :
    (∀ (b : rc_fifobuf_t Int) (v : Int), b.initialized = true →
      b.available = b.size →
      rc_fifobuf_push b v = (-1, b) ∧
      rc_fifobuf_available (rc_fifobuf_push b v).2 = b.size) ∧
    (∀ b : rc_fifobuf_t Int, b.initialized = true → b.available = 0 →
      rc_fifobuf_pop b = (-1, none, b)) ∧
    (∀ c : Int, 2 ≤ c →
      rc_fifobuf_available
        ((rc_fifobuf_alloc (rc_fifobuf_empty Int) c).2) = 0) := by
  refine ⟨?_, ?_, ?_⟩
  · intro b v hinit hfull
    have hp : rc_fifobuf_push b v = (-1, b) := by
      simp [rc_fifobuf_push, hinit, hfull]
    refine ⟨hp, ?_⟩
    rw [hp]
    simp [rc_fifobuf_available, hinit, hfull]
  · intro b hinit hempty
    simp [rc_fifobuf_pop, hinit, hempty]
  · intro c hc
    rw [fifobuf_alloc_fresh Int c hc]
    simp [rc_fifobuf_available]

/-- Witness for claim C4: a full fifo buffer rejects push, an empty one
rejects pop, and a fresh buffer of capacity 3 has nothing available. -/
theorem claim_C4_witness :
    (c2buf.initialized = true ∧ c2buf.available = c2buf.size ∧
      c2pop3.2.2.initialized = true ∧ c2pop3.2.2.available = 0 ∧
      (2:ℤ) ≤ 3) ∧
    rc_fifobuf_push c2buf 4 = (-1, c2buf) ∧
    rc_fifobuf_available (rc_fifobuf_push c2buf 4).2 = c2buf.size ∧
    rc_fifobuf_pop c2pop3.2.2 = (-1, none, c2pop3.2.2) ∧
    rc_fifobuf_available
      ((rc_fifobuf_alloc (rc_fifobuf_empty Int) 3).2) = 0 := by
  have h1 := claim_C4.1 c2buf 4 (by decide) (by decide)
  have h2 := claim_C4.2.1 c2pop3.2.2 (by decide) (by decide)
  have h3 := claim_C4.2.2 3 (by omega)
  exact ⟨⟨by decide, by decide, by decide, by decide, by omega⟩,
    h1.1, h1.2, h2, h3⟩

/-- Cursor invariant of the ring buffer as stated in the specification:
0 ≤ index < size. -/
def ringbuf_inv (b : rc_ringbuf_t α) : Prop :=
  0 ≤ b.index ∧ b.index < b.size

/-- Cursor invariants of the fifo buffer as stated in the specification:
0 ≤ tail < size and 0 ≤ available ≤ size. -/
def fifobuf_inv (b : rc_fifobuf_t α) : Prop :=
  0 ≤ b.tail ∧ b.tail < b.size ∧ 0 ≤ b.available ∧ b.available ≤ b.size

/-- Claim C9: state invariants preserved by every operation: once a
RingBuffer is allocated, 0 ≤ cursor < capacity holds after every
operation in its API; once a FifoBuffer is allocated, 0 ≤ count ≤
capacity (and 0 ≤ head < capacity) holds after every operation in its
API (release de-allocates, so the guarded alloc clause covers every
operation that leaves the buffer allocated). -/
theorem claim_C9 :
    (∀ (b : rc_ringbuf_t Int) (v c : Int), ringbuf_ok b →
      ringbuf_inv (rc_ringbuf_insert b v).2 ∧
      ringbuf_inv (rc_ringbuf_reset b).2 ∧
      ((rc_ringbuf_alloc b c).2.initialized = true →
        ringbuf_inv (rc_ringbuf_alloc b c).2)) ∧
    (∀ (b : rc_fifobuf_t Int) (v c : Int), fifobuf_ok b →
      fifobuf_inv (rc_fifobuf_push b v).2 ∧
      fifobuf_inv (rc_fifobuf_pop b).2.2 ∧
      fifobuf_inv (rc_fifobuf_reset b).2 ∧
      ((rc_fifobuf_alloc b c).2.initialized = true →
        fifobuf_inv (rc_fifobuf_alloc b c).2)) := by
  constructor
  · intro b v c hb
    have hb' := hb
    obtain ⟨hinit, hi0, his, hsome, hlen⟩ := hb'
    refine ⟨?_, ?_, ?_⟩
    · obtain ⟨⟨_, h1, h2, _, _⟩, hsz, _⟩ := ringbuf_insert_ok b v hb
      exact ⟨h1, h2⟩
    · simp [rc_ringbuf_reset, hinit, ringbuf_inv]
      omega
    · intro _
      unfold rc_ringbuf_alloc
      split_ifs with h1 h2
      · exact ⟨hi0, his⟩
      · exact ⟨hi0, his⟩
      · exact ⟨le_refl 0, by dsimp only; omega⟩
  · intro b v c hb
    obtain ⟨hinit, ht0, hts, ha0, has, hsome, hlen⟩ := hb
    refine ⟨?_, ?_, ?_, ?_⟩
    · unfold rc_fifobuf_push
      split_ifs with h1 h2
      · exact ⟨ht0, hts, ha0, has⟩
      · exact ⟨ht0, hts, ha0, has⟩
      · refine ⟨ht0, hts, by dsimp only; omega, by dsimp only; omega⟩
    · unfold rc_fifobuf_pop
      split_ifs with h1 h2
      · exact ⟨ht0, hts, ha0, has⟩
      · exact ⟨ht0, hts, ha0, has⟩
      · have htm : Int.tmod (b.tail + 1) b.size = (b.tail + 1) % b.size :=
          Int.tmod_eq_emod (by omega) (by omega)
        refine ⟨?_, ?_, by dsimp only; omega, by dsimp only; omega⟩
        · dsimp only
          rw [htm]
          exact Int.emod_nonneg _ (by omega)
        · dsimp only
          rw [htm]
          exact Int.emod_lt_of_pos _ (by omega)
    · simp [rc_fifobuf_reset, hinit, fifobuf_inv]
      omega
    · intro _
      unfold rc_fifobuf_alloc
      split_ifs with h1 h2
      · exact ⟨ht0, hts, ha0, has⟩
      · exact ⟨ht0, hts, ha0, has⟩
      · exact ⟨le_refl 0, by dsimp only; omega, le_refl 0,
          by dsimp only; omega⟩

/-- Witness for claim C9 on sampleRing and sampleFifo with value 7 and
capacity 5. -/
theorem claim_C9_witness :
    (ringbuf_ok sampleRing ∧ fifobuf_ok sampleFifo) ∧
    ringbuf_inv (rc_ringbuf_insert sampleRing 7).2 ∧
    fifobuf_inv (rc_fifobuf_push sampleFifo 7).2 ∧
    fifobuf_inv (rc_fifobuf_pop sampleFifo).2.2 := by
  have h1 := claim_C9.1 sampleRing 7 5 (by decide)
  have h2 := claim_C9.2 sampleFifo 7 5 (by decide)
  exact ⟨⟨by decide, by decide⟩, h1.1, h2.1, h2.2.1⟩
